import Mathlib

/-!
# oneTBB: allocator entry points and the market (resource broker)

A shallow embedding of `src/tbb/allocator.cpp` and of the inline members of
`class market` in `src/tbb/market.h`, followed by the properties proved about
them.

Conventions
* `std::size_t`, `unsigned`, `uintptr_t` values are natural numbers; where the
  source relies on wrap-around the reduction `% 2 ^ w` is written out.
* `int` values are integers.
* A pointer is its address, a natural number; the null pointer is `0`.
* The external allocator (`scalable_malloc`, `scalable_aligned_malloc`) is an
  arbitrary state machine over a heap type `σ`.
-/

namespace tbb

/-! ## Definitions: allocator.cpp -/

/-- Identifiers handed to `throw_exception`; allocator.cpp raises only `bad_alloc`. -/
inductive exception_id where
  | bad_alloc
deriving DecidableEq, Repr

/-- The three ways a call of an allocator entry point can end: it returns a
pointer, it leaves through `throw_exception`, or (only when `TBB_USE_ASSERT`
is set) a `__TBB_ASSERT` fails. -/
inductive Outcome where
  | returned (p : Nat)
  | threw (e : exception_id)
  | assertion_failed
deriving DecidableEq, Repr

/-- The imported C functions of allocator.cpp lines 42-47 that allocate.  Each
takes the heap it runs on and gives back the pointer (0 for null) and the heap
it leaves behind; nothing is assumed about what they do. -/
structure Allocator (σ : Type) where
  scalable_malloc : Nat → σ → Nat × σ
  scalable_aligned_malloc : Nat → Nat → σ → Nat × σ

/-- Result of running an entry point: how it ended and the heap afterwards. -/
structure Run (σ : Type) where
  outcome : Outcome
  heap : σ

/-- One invocation of an imported allocation function, with its arguments. -/
inductive AllocCall where
  | malloc (size : Nat)
  | aligned_malloc (size alignment : Nat)
deriving DecidableEq, Repr

/-- The allocator `A` with a journal attached to its heap: every invocation
appends its arguments to the journal and otherwise behaves exactly as `A`. -/
def recording {σ : Type} (A : Allocator σ) : Allocator (σ × List AllocCall) where
  scalable_malloc := fun size s =>
    ((A.scalable_malloc size s.1).1,
     ((A.scalable_malloc size s.1).2, s.2 ++ [AllocCall.malloc size]))
  scalable_aligned_malloc := fun size alignment s =>
    ((A.scalable_aligned_malloc size alignment s.1).1,
     ((A.scalable_aligned_malloc size alignment s.1).2,
      s.2 ++ [AllocCall.aligned_malloc size alignment]))

/-- Modelled from the spec: `is_power_of_two` lives in
`oneapi/tbb/detail/_utils.h`, which is not among the sources.  It is read off
the assertion message "must be power of two" at allocator.cpp line 63: a
non-zero word with a single bit set. -/
def is_power_of_two (arg : Nat) : Bool :=
  arg != 0 && (arg &&& (arg - 1)) == 0

/-- Modelled from the spec: `is_aligned` lives in
`oneapi/tbb/detail/_utils.h`, which is not among the sources.  It is read off
the assertion message "The returned address isn't aligned" at allocator.cpp
line 76: the address has no bit set below the (power of two) alignment. -/
def is_aligned (pointer alignment : Nat) : Bool :=
  (pointer &&& (alignment - 1)) == 0

/-- The constant of allocator.cpp line 55 (nfs: no false sharing). -/
def nfs_size : Nat := 128

/-- The function of allocator.cpp lines 57-59. -/
def cache_line_size : Nat := nfs_size

/-- The function of allocator.cpp lines 61-78.  `w` is the width of
`std::size_t`, `TBB_USE_ASSERT` says whether `__TBB_ASSERT` is compiled in
(the spec, section 7: a failed assertion is fatal in debug builds and ignored in
optimized builds). -/
def cache_aligned_allocate {σ : Type} (w : Nat) (TBB_USE_ASSERT : Bool)
    (A : Allocator σ) (size : Nat) (s : σ) : Run σ :=
  let cache_line_size := nfs_size
  if TBB_USE_ASSERT && !is_power_of_two cache_line_size then
    ⟨Outcome.assertion_failed, s⟩
  else if (size + cache_line_size) % 2 ^ w < size then
    ⟨Outcome.threw exception_id.bad_alloc, s⟩
  else
    let size := if size = 0 then 1 else size
    let result := A.scalable_aligned_malloc size cache_line_size s
    if result.1 = 0 then
      ⟨Outcome.threw exception_id.bad_alloc, result.2⟩
    else if TBB_USE_ASSERT && !is_aligned result.1 cache_line_size then
      ⟨Outcome.assertion_failed, result.2⟩
    else
      ⟨Outcome.returned result.1, result.2⟩

/-- The function of allocator.cpp lines 84-90. -/
def allocate_memory {σ : Type} (A : Allocator σ) (size : Nat) (s : σ) : Run σ :=
  let result := A.scalable_malloc size s
  if result.1 = 0 then
    ⟨Outcome.threw exception_id.bad_alloc, result.2⟩
  else
    ⟨Outcome.returned result.1, result.2⟩

/-- An allocator used in examples: a bump allocator whose heap is the next free
address and the bytes left; it returns null when the request does not fit. -/
def bump : Allocator (Nat × Nat) where
  scalable_malloc := fun size s =>
    if size ≤ s.2 then (s.1, (s.1 + size, s.2 - size)) else (0, s)
  scalable_aligned_malloc := fun size alignment s =>
    let p := (s.1 + alignment - 1) / alignment * alignment
    if p - s.1 + size ≤ s.2 then (p, (p + size, s.2 - (p - s.1 + size))) else (0, s)

/-! ## Definitions: market.h -/

/-- The constant of market.h line 64: the number of arena lists; a lower index
is a higher priority. -/
def num_priority_levels : Nat := 3

/-- Modelled from the spec: `tbb_permit_manager_client` is only forward-declared
in market.h (line 48).  This is the ArenaHandle of spec section 3: the storage
slot the handle occupies (its address), the creation epoch stamped at
registration, its priority tier, the number of workers it wants and the number
of workers allotted to it. -/
structure tbb_permit_manager_client where
  slot : Nat
  epoch : Nat
  priority_level : Nat
  demand : Nat
  allotment : Nat
deriving DecidableEq, Repr

/-- The list type of market.h line 70; the intrusive list is the list of its
members in traversal order. -/
abbrev arena_list_type : Type := List tbb_permit_manager_client

/-- The data members of `class market`, market.h lines 73-144 and 266-271.
Pointers to collaborators (`my_thread_pool`, `my_server`, the entries of
`my_masters` and `my_workers`, `my_next_arena`) are addresses; the mutex
`my_arenas_list_mutex` carries no data. -/
structure market where
  my_thread_pool : Nat
  my_server : Nat
  my_num_workers_hard_limit : Nat
  my_num_workers_soft_limit : Nat
  my_num_workers_requested : Int
  my_first_unused_worker_idx : Nat
  my_total_demand : Int
  my_priority_level_demand : List Int
  my_mandatory_num_requested : Int
  my_arenas : List arena_list_type
  my_next_arena : Nat
  my_arenas_aba_epoch : Nat
  my_ref_count : Nat
  my_public_ref_count : Nat
  my_stack_size : Nat
  my_join_workers : Bool
  my_workers_soft_limit_to_report : Nat
  my_masters : List Nat
  my_workers : List Nat
deriving DecidableEq, Repr

/-- The conversion `(int)effective_soft_limit` of market.h line 161, for a
32-bit `unsigned` and a 32-bit two's complement `int`. -/
def to_int (u : Nat) : Int :=
  if u % 2 ^ 32 < 2 ^ 31 then ((u % 2 ^ 32 : Nat) : Int)
  else ((u % 2 ^ 32 : Nat) : Int) - 2 ^ 32

/-- The member of market.h lines 158-163.  Its callee, the three-argument
overload declared at line 183, is a member function whose body is not in the
header; it is the parameter `update_allotment_arenas`, which receives the
market it runs on (`this`) and gives back its `int` result and the market it
leaves behind. -/
def market.update_allotment
    (update_allotment_arenas : market → List arena_list_type → Int → Int → Int × market)
    (m : market) (effective_soft_limit : Nat) : market :=
  let total_demand := m.my_total_demand
  if total_demand ≠ 0 then
    (update_allotment_arenas m m.my_arenas total_demand (to_int effective_soft_limit)).2
  else
    m

/-- The member of market.h line 190. -/
def market.max_job_count (m : market) : Nat := m.my_num_workers_hard_limit

/-- The member of market.h line 247. -/
def market.worker_stack_size (m : market) : Nat := m.my_stack_size

/-- The member of market.h line 192. -/
def market.min_stack_size (m : market) : Nat := m.worker_stack_size

/-- The member of market.h lines 282-284.  It is not declared `const`, so it
is given the market and hands back the market it leaves behind. -/
def market.aba_epoch (m : market) : Nat × market :=
  (m.my_arenas_aba_epoch, m)

/-! ### Members whose bodies are in market.cpp -/

/-- Sum of the demands of the arenas of one list. -/
def tier_demand (l : arena_list_type) : Nat := (l.map (fun a => a.demand)).sum

/-- Sum of the allotments of the arenas of one list. -/
def allotted (l : arena_list_type) : Nat := (l.map (fun a => a.allotment)).sum

/-- Modelled from the spec: first half of the per-tier step of section 4.2,
"a purely proportional split truncated toward each arena's own outstanding
demand": arena `a` gets `a.demand * budget / demand of the tier`, rounded
down. -/
def proportional_split (budget total : Nat) (l : arena_list_type) : arena_list_type :=
  l.map (fun a => { a with allotment := a.demand * budget / total })

/-- Modelled from the spec: one round over the arenas of a tier in list order,
handing one worker of the `remainder` to every arena that still wants one.
Gives back what is left of the remainder and the updated list. -/
def give_round : Nat → arena_list_type → Nat × arena_list_type
  | remainder, [] => (remainder, [])
  | remainder, a :: l =>
    if 0 < remainder ∧ a.allotment < a.demand then
      ((give_round (remainder - 1) l).1,
       { a with allotment := a.allotment + 1 } :: (give_round (remainder - 1) l).2)
    else
      ((give_round remainder l).1, a :: (give_round remainder l).2)

/-- Modelled from the spec: second half of the per-tier step of section 4.2,
"the remainder (to reach the tier's budget) distributed to arenas in round-robin
order one worker at a time until exhausted or the tier's total demand is
satisfied".  Rounds are repeated while the remainder is non-zero and the last
round handed out a worker; `fuel` bounds the number of rounds. -/
def round_robin : Nat → Nat → arena_list_type → arena_list_type
  | 0, _, l => l
  | fuel + 1, remainder, l =>
    if remainder = 0 then l
    else if (give_round remainder l).1 = remainder then l
    else round_robin fuel (give_round remainder l).1 (give_round remainder l).2

/-- Modelled from the spec: the per-tier step of section 4.2.  The tier's
budget is what is available, at most the tier's demand; the result is the
leftover capacity that "carries to the next (lower-priority) tier" and the
tier with its new allotments. -/
def allot_tier (available : Nat) (l : arena_list_type) : Nat × arena_list_type :=
  let budget := min (tier_demand l) available
  let split := proportional_split budget (tier_demand l) l
  let remainder := budget - allotted split
  (available - budget, round_robin remainder remainder split)

/-- Modelled from the spec: "tiers are processed in priority order (highest
first)", each with the capacity the tiers before it left over. -/
def allot_tiers : Nat → List arena_list_type → List arena_list_type
  | _, [] => []
  | available, l :: ls => (allot_tier available l).2 :: allot_tiers (allot_tier available l).1 ls

/-- Modelled from the spec: the overload
`update_allotment(arena_list_type*, int, int)` declared at market.h line 183;
its body is in market.cpp.  Section 4.2: it "distributes `effective_limit`
workers across registered arenas".  A limit below zero leaves nothing to
distribute.  The spec does not say what the `int` result is (the caller in
market.h drops it); it is taken to be the number of workers handed out.  The
spec gives no role to the `total_demand` argument. -/
def market.update_allotment_arenas (m : market) (arenas : List arena_list_type)
    (_total_demand : Int) (max_workers : Int) : Int × market :=
  let arenas := allot_tiers max_workers.toNat arenas
  (((allotted arenas.flatten : Nat) : Int), { m with my_arenas := arenas })

/-- Modelled from the spec: `update_workers_request` is declared at market.h
lines 152-153 ("Recalculates the number of workers requested from RML and
updates the allotment"); its body is in market.cpp.  Section 4.2:
`requested = min(total_demand, soft_limit, hard_limit)`, clamped to at least 0;
the result is the change the thread provider is asked for (zero: the provider
is not asked).  The allotment is recomputed with the new request as the
effective limit, as in the end-to-end example of section 8. -/
def market.update_workers_request (m : market) : Int × market :=
  let old_request := m.my_num_workers_requested
  let requested : Int :=
    max 0 (min m.my_total_demand
      (min (m.my_num_workers_soft_limit : Int) (m.my_num_workers_hard_limit : Int)))
  let m := { m with my_num_workers_requested := requested }
  (requested - old_request, m.update_allotment market.update_allotment_arenas requested.toNat)

/-- Applies `f` to the arena list of tier `i`; no list is touched when `i` is
not a tier. -/
def modify_tier (f : arena_list_type → arena_list_type) :
    Nat → List arena_list_type → List arena_list_type
  | _, [] => []
  | 0, l :: ls => f l :: ls
  | i + 1, l :: ls => l :: modify_tier f i ls

/-- Modelled from the spec: `insert_arena_into_list`, declared at market.h
line 179; section 4.3: the handle is inserted "into the list for its tier". -/
def market.insert_arena_into_list (m : market) (a : tbb_permit_manager_client) : market :=
  { m with my_arenas := modify_tier (fun l => a :: l) a.priority_level m.my_arenas }

/-- Modelled from the spec: `remove_arena_from_list`, declared at market.h
line 181; section 4.3: the handle is removed "from its tier list".  A handle is
identified by the storage slot it occupies. -/
def market.remove_arena_from_list (m : market) (a : tbb_permit_manager_client) : market :=
  { m with my_arenas :=
      modify_tier (fun l => l.filter (fun b => b.slot != a.slot)) a.priority_level m.my_arenas }

/-- Modelled from the spec: `create_client`, declared at market.h line 203;
section 4.3: it "allocates a new ArenaHandle, stamps it with the current epoch
(then advances the epoch), inserts it into the list for its tier, and returns
the handle".  The slot the allocation lands in and the tier the arena asks for
are arguments.  The counter is a `uintptr_t` (market.h line 126); the spec
calls it monotonically increasing, so advancing it is adding one without
wrap-around. -/
def market.create_client (m : market) (slot priority_level : Nat) :
    tbb_permit_manager_client × market :=
  let c : tbb_permit_manager_client :=
    { slot := slot, epoch := m.my_arenas_aba_epoch, priority_level := priority_level,
      demand := 0, allotment := 0 }
  let m := { m with my_arenas_aba_epoch := m.my_arenas_aba_epoch + 1 }
  (c, m.insert_arena_into_list c)

/-- Modelled from the spec: `destroy_client`, declared at market.h line 204;
section 4.3: it "removes it from its tier list". -/
def market.destroy_client (m : market) (c : tbb_permit_manager_client) : market :=
  m.remove_arena_from_list c

/-- Modelled from the spec: `try_destroy_arena`, declared at market.h line 215;
section 4.3: "it succeeds (and performs removal) only if the stored epoch at
that slot still matches, otherwise it is a no-op signaling already gone".  The
handle `c` is the slot the caller still refers to; the result `false` is
"already gone". -/
def market.try_destroy_arena (m : market) (c : Nat) (aba_epoch : Nat) (priority_level : Nat) :
    Bool × market :=
  match (m.my_arenas.getD priority_level []).find? (fun a => a.slot == c) with
  | some a =>
    if a.epoch = aba_epoch then (true, m.remove_arena_from_list a) else (false, m)
  | none => (false, m)

/-- The operations on the registry that can happen between two moments. -/
inductive registry_op where
  | create (slot priority_level : Nat)
  | destroy (c : tbb_permit_manager_client)
  | try_destroy (c : Nat) (aba_epoch : Nat) (priority_level : Nat)
  | update_request
deriving DecidableEq, Repr

/-- The market after one registry operation. -/
def market.step (m : market) : registry_op → market
  | registry_op.create slot priority_level => (m.create_client slot priority_level).2
  | registry_op.destroy c => m.destroy_client c
  | registry_op.try_destroy c aba_epoch priority_level =>
    (m.try_destroy_arena c aba_epoch priority_level).2
  | registry_op.update_request => m.update_workers_request.2

/-- The market after a sequence of registry operations. -/
def market.run (m : market) (ops : List registry_op) : market :=
  ops.foldl market.step m

/-- All registered arenas, highest tier first. -/
def market.registered (m : market) : arena_list_type := m.my_arenas.flatten

/-- Well-formed registry (spec section 3): there is one list per priority
level, every registered epoch was handed out before the current one, and no two
registered handles share a storage slot. -/
def market.wf (m : market) : Prop :=
  m.my_arenas.length = num_priority_levels ∧
  (∀ a ∈ m.registered, a.epoch < m.my_arenas_aba_epoch) ∧
  (m.registered.map (fun a => a.slot)).Nodup

instance (m : market) : Decidable m.wf := by
  unfold market.wf
  infer_instance

/-- The reference `(slot, e)` is stale in `m`: epoch `e` was handed out before
the current one and any arena now registered at `slot` carries a later epoch. -/
def market.stale (m : market) (slot e : Nat) : Prop :=
  m.my_arenas.length = num_priority_levels ∧
  e < m.my_arenas_aba_epoch ∧
  (∀ a ∈ m.registered, a.slot = slot → e < a.epoch)

instance (m : market) (slot e : Nat) : Decidable (m.stale slot e) := by
  unfold market.stale
  infer_instance

/-- The operation can happen in `m`: a new handle never lands in a slot that a
registered handle still occupies. -/
def market.admits (m : market) : registry_op → Prop
  | registry_op.create slot _ => ∀ a ∈ m.registered, a.slot ≠ slot
  | _ => True

/-- Every operation of the sequence can happen in the market it meets. -/
def market.admits_all : market → List registry_op → Prop
  | _, [] => True
  | m, op :: ops => m.admits op ∧ (m.step op).admits_all ops

/-- The bounds of spec section 8 on an allotment: no arena holds more than it
demands and all arenas together hold at most `limit`. -/
def market.allotment_within (m : market) (limit : Nat) : Prop :=
  (∀ a ∈ m.registered, a.allotment ≤ a.demand) ∧ allotted m.registered ≤ limit

instance (m : market) (limit : Nat) : Decidable (m.allotment_within limit) := by
  unfold market.allotment_within
  infer_instance

/-- The handle with its allotment blanked: the part of a handle that computing
allotments leaves alone. -/
def forget_allotment (a : tbb_permit_manager_client) : tbb_permit_manager_client :=
  { a with allotment := 0 }

/-- A market with no arenas, hard limit 8 and soft limit 5. -/
def market.example_empty : market :=
  { my_thread_pool := 0, my_server := 0, my_num_workers_hard_limit := 8,
    my_num_workers_soft_limit := 5, my_num_workers_requested := 0,
    my_first_unused_worker_idx := 0, my_total_demand := 0,
    my_priority_level_demand := [0, 0, 0], my_mandatory_num_requested := 0,
    my_arenas := [[], [], []], my_next_arena := 0, my_arenas_aba_epoch := 1,
    my_ref_count := 1, my_public_ref_count := 1, my_stack_size := 4194304,
    my_join_workers := false, my_workers_soft_limit_to_report := 0,
    my_masters := [], my_workers := [] }

/-- An arena handle with the given slot, tier, demand and allotment. -/
def arena_handle (slot priority_level demand allotment : Nat) : tbb_permit_manager_client :=
  { slot := slot, epoch := 0, priority_level := priority_level, demand := demand,
    allotment := allotment }

/-- A registry with two arenas: slot 4096 (epoch 1, tier 1) and slot 8192
(epoch 2, tier 0); the next epoch is 3. -/
def market.example_registry : market :=
  { market.example_empty with
    my_arenas_aba_epoch := 3,
    my_arenas := [[{ slot := 8192, epoch := 2, priority_level := 0, demand := 0, allotment := 0 }],
                  [{ slot := 4096, epoch := 1, priority_level := 1, demand := 0, allotment := 0 }],
                  []] }

/-- The handle registered at slot 4096 of `market.example_registry`. -/
def market.example_handle : tbb_permit_manager_client :=
  { slot := 4096, epoch := 1, priority_level := 1, demand := 0, allotment := 0 }

/-- Spec section 8, fairness: three arenas of one tier with demands 4, 2, 1. -/
def market.example_fairness : market :=
  { market.example_empty with
    my_total_demand := 7, my_priority_level_demand := [0, 7, 0],
    my_arenas := [[], [arena_handle 1 1 4 0, arena_handle 2 1 2 0, arena_handle 3 1 1 0], []] }

/-- Spec section 8, end-to-end: arena A (tier 0, demand 6), arena B (tier 1,
demand 3). -/
def market.example_end_to_end : market :=
  { market.example_empty with
    my_total_demand := 9, my_priority_level_demand := [6, 3, 0],
    my_arenas := [[arena_handle 1 0 6 0], [arena_handle 2 1 3 0], []] }

/-- The end-to-end example with the soft limit raised to 9. -/
def market.example_end_to_end_raised : market :=
  { market.example_end_to_end with my_num_workers_soft_limit := 9 }

/-- A market with no demand left whose only arena still holds the three
workers allotted to it before its demand dropped to zero. -/
def market.example_stale : market :=
  { market.example_empty with
    my_arenas := [[], [arena_handle 1 1 0 3], []] }

/-! ## Theorems: allocator.cpp -/

theorem is_power_of_two_128 : is_power_of_two 128 = true := by decide

theorem max_one_eq (size : Nat) : (if size = 0 then 1 else size) = max size 1 := by
  split <;> omega

/-- The body of `cache_aligned_allocate` with the constant folded in and the
first assertion, which always passes, removed. -/
theorem cache_aligned_allocate_eq {σ : Type} (w : Nat) (TBB_USE_ASSERT : Bool)
    (A : Allocator σ) (size : Nat) (s : σ) :
    cache_aligned_allocate w TBB_USE_ASSERT A size s =
      if (size + 128) % 2 ^ w < size then
        ⟨Outcome.threw exception_id.bad_alloc, s⟩
      else if (A.scalable_aligned_malloc (max size 1) 128 s).1 = 0 then
        ⟨Outcome.threw exception_id.bad_alloc, (A.scalable_aligned_malloc (max size 1) 128 s).2⟩
      else if TBB_USE_ASSERT = true ∧
          is_aligned (A.scalable_aligned_malloc (max size 1) 128 s).1 128 = false then
        ⟨Outcome.assertion_failed, (A.scalable_aligned_malloc (max size 1) 128 s).2⟩
      else
        ⟨Outcome.returned (A.scalable_aligned_malloc (max size 1) 128 s).1,
         (A.scalable_aligned_malloc (max size 1) 128 s).2⟩ := by
  simp [cache_aligned_allocate, nfs_size, is_power_of_two_128, max_one_eq]

theorem recording_aligned_fst {σ : Type} (A : Allocator σ) (size alignment : Nat)
    (s : σ × List AllocCall) :
    ((recording A).scalable_aligned_malloc size alignment s).1
      = (A.scalable_aligned_malloc size alignment s.1).1 := rfl

theorem recording_aligned_snd {σ : Type} (A : Allocator σ) (size alignment : Nat)
    (s : σ × List AllocCall) :
    ((recording A).scalable_aligned_malloc size alignment s).2
      = ((A.scalable_aligned_malloc size alignment s.1).2,
         s.2 ++ [AllocCall.aligned_malloc size alignment]) := rfl

theorem recording_malloc_fst {σ : Type} (A : Allocator σ) (size : Nat)
    (s : σ × List AllocCall) :
    ((recording A).scalable_malloc size s).1 = (A.scalable_malloc size s.1).1 := rfl

theorem recording_malloc_snd {σ : Type} (A : Allocator σ) (size : Nat)
    (s : σ × List AllocCall) :
    ((recording A).scalable_malloc size s).2
      = ((A.scalable_malloc size s.1).2, s.2 ++ [AllocCall.malloc size]) := rfl

/-- The journal after `cache_aligned_allocate` against a recording allocator. -/
theorem cache_aligned_allocate_journal {σ : Type} (w : Nat) (TBB_USE_ASSERT : Bool)
    (A : Allocator σ) (size : Nat) (s : σ) :
    (cache_aligned_allocate w TBB_USE_ASSERT (recording A) size (s, [])).heap.2 =
      (if (size + 128) % 2 ^ w < size then []
       else [AllocCall.aligned_malloc (max size 1) 128]) := by
  rw [cache_aligned_allocate_eq]
  simp only [recording_aligned_fst, recording_aligned_snd]
  by_cases hov : (size + 128) % 2 ^ w < size
  · simp [hov]
  · simp only [hov, if_false]
    split
    · simp
    · split <;> simp

/-- The journal after `allocate_memory` against a recording allocator. -/
theorem allocate_memory_journal {σ : Type} (A : Allocator σ) (size : Nat) (s : σ) :
    (allocate_memory (recording A) size (s, [])).heap.2 = [AllocCall.malloc size] := by
  simp only [allocate_memory, recording_malloc_fst, recording_malloc_snd]
  split <;> simp

/-- C3: `cache_aligned_allocate(size)` leaves with `bad_alloc` exactly when
`size + 128` wraps around the `w`-bit word or the underlying aligned allocator
returns null, and in every other case returns the very pointer the underlying
aligned allocator returned.  "Aligned allocator" is the premise `h_aligned`:
when `__TBB_ASSERT` is compiled in, the pointer handed back for this request
passes the alignment check of line 76 (null passes it). -/
theorem cache_aligned_allocate_bad_alloc_iff {σ : Type} (w : Nat) (TBB_USE_ASSERT : Bool)
    (A : Allocator σ) (size : Nat) (s : σ)
    (h_aligned : TBB_USE_ASSERT = true →
      is_aligned (A.scalable_aligned_malloc (max size 1) 128 s).1 128 = true) :
    ((cache_aligned_allocate w TBB_USE_ASSERT A size s).outcome
        = Outcome.threw exception_id.bad_alloc ↔
      ((size + 128) % 2 ^ w < size ∨ (A.scalable_aligned_malloc (max size 1) 128 s).1 = 0)) ∧
    (cache_aligned_allocate w TBB_USE_ASSERT A size s).outcome =
      (if (size + 128) % 2 ^ w < size ∨ (A.scalable_aligned_malloc (max size 1) 128 s).1 = 0
       then Outcome.threw exception_id.bad_alloc
       else Outcome.returned (A.scalable_aligned_malloc (max size 1) 128 s).1) := by
  have hno : ¬ (TBB_USE_ASSERT = true ∧
      is_aligned (A.scalable_aligned_malloc (max size 1) 128 s).1 128 = false) := by
    rintro ⟨h1, h2⟩
    rw [h_aligned h1] at h2
    exact Bool.noConfusion h2
  rw [cache_aligned_allocate_eq]
  by_cases hov : (size + 128) % 2 ^ w < size
  · simp [hov]
  · by_cases hnull : (A.scalable_aligned_malloc (max size 1) 128 s).1 = 0
    · simp [hov, hnull]
    · simp only [hov, hnull, hno, if_false, or_self, iff_false]
      simp

/-- Witness for C3: a 64-bit build with assertions on, the bump allocator at
address 1000 with 4096 bytes left, a request of 0 bytes. -/
theorem cache_aligned_allocate_bad_alloc_iff_witness :
    is_aligned (bump.scalable_aligned_malloc (max 0 1) 128 (1000, 4096)).1 128 = true ∧
    (cache_aligned_allocate 64 true bump 0 (1000, 4096)).outcome = Outcome.returned 1024 := by
  refine ⟨by decide, ?_⟩
  have h := (cache_aligned_allocate_bad_alloc_iff 64 true bump 0 (1000, 4096)
    (fun _ => by decide)).2
  rw [h]
  decide

/-- C4: `allocate_memory(size)` hands `size` unchanged to `scalable_malloc`
(the journal holds that one call), leaves with `bad_alloc` exactly when the
underlying allocator returns null, and otherwise returns the very pointer the
underlying allocator returned; the heap is the one that call left behind. -/
theorem allocate_memory_pass_through {σ : Type} (A : Allocator σ) (size : Nat) (s : σ) :
    (allocate_memory (recording A) size (s, [])).heap.2 = [AllocCall.malloc size] ∧
    ((allocate_memory A size s).outcome = Outcome.threw exception_id.bad_alloc ↔
      (A.scalable_malloc size s).1 = 0) ∧
    (allocate_memory A size s).outcome =
      (if (A.scalable_malloc size s).1 = 0 then Outcome.threw exception_id.bad_alloc
       else Outcome.returned (A.scalable_malloc size s).1) ∧
    (allocate_memory A size s).heap = (A.scalable_malloc size s).2 := by
  refine ⟨allocate_memory_journal A size s, ?_, ?_, ?_⟩
  · by_cases h : (A.scalable_malloc size s).1 = 0 <;> simp [allocate_memory, h]
  · by_cases h : (A.scalable_malloc size s).1 = 0 <;> simp [allocate_memory, h]
  · by_cases h : (A.scalable_malloc size s).1 = 0 <;> simp [allocate_memory, h]

/-- C8: no allocation is retried.  Against any allocator, from any heap, one
call of `cache_aligned_allocate(size)` invokes `scalable_aligned_malloc` no
times when `size + 128` wraps around and once otherwise (so at most once) and
never invokes `scalable_malloc`; one call of `allocate_memory(size)` invokes
`scalable_malloc` exactly once and nothing else; and when that single
invocation returns null the call leaves with `bad_alloc`. -/
theorem allocation_not_retried {σ : Type} (w : Nat) (TBB_USE_ASSERT : Bool)
    (A : Allocator σ) (size : Nat) (s : σ) :
    (cache_aligned_allocate w TBB_USE_ASSERT (recording A) size (s, [])).heap.2.length ≤ 1 ∧
    (cache_aligned_allocate w TBB_USE_ASSERT (recording A) size (s, [])).heap.2 =
      (if (size + 128) % 2 ^ w < size then []
       else [AllocCall.aligned_malloc (max size 1) 128]) ∧
    (allocate_memory (recording A) size (s, [])).heap.2 = [AllocCall.malloc size] ∧
    (¬ (size + 128) % 2 ^ w < size →
      (A.scalable_aligned_malloc (max size 1) 128 s).1 = 0 →
      (cache_aligned_allocate w TBB_USE_ASSERT (recording A) size (s, [])).outcome
        = Outcome.threw exception_id.bad_alloc) ∧
    ((A.scalable_malloc size s).1 = 0 →
      (allocate_memory (recording A) size (s, [])).outcome
        = Outcome.threw exception_id.bad_alloc) := by
  refine ⟨?_, cache_aligned_allocate_journal w TBB_USE_ASSERT A size s,
    allocate_memory_journal A size s, ?_, ?_⟩
  · rw [cache_aligned_allocate_journal]; split <;> simp
  · intro hov hnull
    rw [cache_aligned_allocate_eq]
    simp [recording_aligned_fst, hov, hnull]
  · intro hnull
    simp [allocate_memory, recording_malloc_fst, hnull]

/-- Witness for C8: a bump allocator with 16 bytes left cannot serve 64 bytes;
both entry points leave with `bad_alloc` after their single invocation. -/
theorem allocation_not_retried_witness :
    (cache_aligned_allocate 64 false (recording bump) 64 ((1000, 16), [])).outcome
        = Outcome.threw exception_id.bad_alloc ∧
    (allocate_memory (recording bump) 64 ((1000, 16), [])).outcome
        = Outcome.threw exception_id.bad_alloc ∧
    (cache_aligned_allocate 64 false (recording bump) 64 ((1000, 16), [])).heap.2.length ≤ 1 := by
  have h := allocation_not_retried 64 false bump 64 (1000, 16)
  exact ⟨h.2.2.2.1 (by decide) (by decide), h.2.2.2.2 (by decide), h.1⟩

/-- C9: when `size + 128` does not wrap around, the one request
`cache_aligned_allocate(size)` sends to the underlying aligned allocator is for
`max(size, 1)` bytes with alignment 128; 128 is what `cache_line_size()`
returns and is a power of two; a request of zero bytes goes out as a request
for one byte, and no request for zero bytes is ever sent. -/
theorem cache_aligned_allocate_request {σ : Type} (w : Nat) (TBB_USE_ASSERT : Bool)
    (A : Allocator σ) (size : Nat) (s : σ) (h_fits : ¬ (size + 128) % 2 ^ w < size) :
    (cache_aligned_allocate w TBB_USE_ASSERT (recording A) size (s, [])).heap.2
      = [AllocCall.aligned_malloc (max size 1) cache_line_size] ∧
    cache_line_size = 128 ∧ (∃ k, cache_line_size = 2 ^ k) ∧
    is_power_of_two cache_line_size = true ∧
    (size = 0 →
      (cache_aligned_allocate w TBB_USE_ASSERT (recording A) size (s, [])).heap.2
        = [AllocCall.aligned_malloc 1 128]) ∧
    (∀ alignment, AllocCall.aligned_malloc 0 alignment ∉
      (cache_aligned_allocate w TBB_USE_ASSERT (recording A) size (s, [])).heap.2) := by
  have hj : (cache_aligned_allocate w TBB_USE_ASSERT (recording A) size (s, [])).heap.2
      = [AllocCall.aligned_malloc (max size 1) 128] := by
    rw [cache_aligned_allocate_journal]; simp [h_fits]
  refine ⟨hj, rfl, ⟨7, by decide⟩, by decide, ?_, ?_⟩
  · intro h0
    rw [hj, h0]; rfl
  · intro alignment
    rw [hj]
    simp only [List.mem_singleton, AllocCall.aligned_malloc.injEq, not_and]
    omega

/-- Witness for C9: a zero-byte request in a 64-bit build reaches the bump
allocator as a request for one byte aligned to 128. -/
theorem cache_aligned_allocate_request_witness :
    (cache_aligned_allocate 64 true (recording bump) 0 ((1000, 4096), [])).heap.2
      = [AllocCall.aligned_malloc 1 128] :=
  (cache_aligned_allocate_request 64 true bump 0 (1000, 4096) (by decide)).2.2.2.2.1 rfl

/-! ## Theorems: market.h -/

/-- C6: `max_job_count()` is the hard worker limit, whatever the soft limit,
the demand and the number of workers requested are; `min_stack_size()` is the
stack size stored in the market, the value `worker_stack_size()` returns. -/
theorem max_job_count_min_stack_size (m : market) (soft : Nat) (demand requested : Int) :
    m.max_job_count = m.my_num_workers_hard_limit ∧
    ({ m with my_num_workers_soft_limit := soft, my_total_demand := demand,
              my_num_workers_requested := requested }).max_job_count = m.max_job_count ∧
    m.min_stack_size = m.my_stack_size ∧
    m.min_stack_size = m.worker_stack_size :=
  ⟨rfl, rfl, rfl, rfl⟩

/-- C7: `aba_epoch()` returns the current epoch counter and leaves the market
exactly as it was, so a second call right after returns the same value. -/
theorem aba_epoch_pure_read (m : market) :
    m.aba_epoch.1 = m.my_arenas_aba_epoch ∧
    m.aba_epoch.2 = m ∧
    m.aba_epoch.2.aba_epoch.1 = m.aba_epoch.1 :=
  ⟨rfl, rfl, rfl⟩

theorem to_int_of_lt (u : Nat) (h : u < 2 ^ 31) : to_int u = (u : Int) := by
  unfold to_int
  split <;> omega

theorem to_int_toNat_le (u : Nat) : (to_int u).toNat ≤ u := by
  unfold to_int
  split <;> omega

/-- C10: with a total demand of zero `update_allotment(effective_soft_limit)`
changes nothing, whatever the per-arena routine would do; with a non-zero total
demand its effect is that of one run of the per-arena routine on the market's
own lists, that total demand and `(int)effective_soft_limit`, which is
`effective_soft_limit` itself below `2^31`. -/
theorem update_allotment_gate
    (update_allotment_arenas : market → List arena_list_type → Int → Int → Int × market)
    (m : market) (effective_soft_limit : Nat) :
    (m.my_total_demand = 0 →
      m.update_allotment update_allotment_arenas effective_soft_limit = m) ∧
    (m.my_total_demand ≠ 0 →
      m.update_allotment update_allotment_arenas effective_soft_limit =
        (update_allotment_arenas m m.my_arenas m.my_total_demand
          (to_int effective_soft_limit)).2) ∧
    (effective_soft_limit < 2 ^ 31 → to_int effective_soft_limit = (effective_soft_limit : Int)) := by
  refine ⟨?_, ?_, to_int_of_lt effective_soft_limit⟩
  · intro h
    simp [market.update_allotment, h]
  · intro h
    simp [market.update_allotment, h]

/-- Witness for C10: the stale market (no demand) is left alone even by a
routine that would clear every list, and on the fairness example (demand 7,
limit 5) that routine runs. -/
theorem update_allotment_gate_witness :
    market.example_stale.update_allotment (fun m _ _ _ => (0, { m with my_arenas := [] })) 5
      = market.example_stale ∧
    market.example_fairness.update_allotment (fun m _ _ _ => (0, { m with my_arenas := [] })) 5
      = { market.example_fairness with my_arenas := [] } ∧
    to_int 5 = 5 :=
  ⟨(update_allotment_gate _ market.example_stale 5).1 (by decide),
   (update_allotment_gate _ market.example_fairness 5).2.1 (by decide),
   (update_allotment_gate (fun m _ _ _ => (0, m)) market.example_stale 5).2.2 (by decide)⟩

/-! ### The allotment computation -/

theorem allotted_cons (a : tbb_permit_manager_client) (l : arena_list_type) :
    allotted (a :: l) = a.allotment + allotted l := by
  simp [allotted]

theorem allotted_append (l₁ l₂ : arena_list_type) :
    allotted (l₁ ++ l₂) = allotted l₁ + allotted l₂ := by
  simp [allotted]

theorem tier_demand_cons (a : tbb_permit_manager_client) (l : arena_list_type) :
    tier_demand (a :: l) = a.demand + tier_demand l := by
  simp [tier_demand]

theorem give_round_le_demand (remainder : Nat) (l : arena_list_type)
    (h : ∀ a ∈ l, a.allotment ≤ a.demand) :
    ∀ a ∈ (give_round remainder l).2, a.allotment ≤ a.demand := by
  induction l generalizing remainder with
  | nil => simp [give_round]
  | cons a l ih =>
    have hl : ∀ b ∈ l, b.allotment ≤ b.demand := fun b hb => h b (List.mem_cons_of_mem _ hb)
    unfold give_round
    split
    · rename_i hc
      intro b hb
      simp only [List.mem_cons] at hb
      rcases hb with rfl | hb
      · exact hc.2
      · exact ih _ hl b hb
    · intro b hb
      simp only [List.mem_cons] at hb
      rcases hb with rfl | hb
      · exact h _ (List.mem_cons_self _ _)
      · exact ih _ hl b hb

theorem give_round_conserve (remainder : Nat) (l : arena_list_type) :
    allotted (give_round remainder l).2 + (give_round remainder l).1
      = allotted l + remainder := by
  induction l generalizing remainder with
  | nil => simp [give_round]
  | cons a l ih =>
    unfold give_round
    split
    · rename_i hc
      have := ih (remainder - 1)
      simp only [allotted_cons]
      omega
    · have := ih remainder
      simp only [allotted_cons]
      omega

theorem give_round_forget (remainder : Nat) (l : arena_list_type) :
    (give_round remainder l).2.map forget_allotment = l.map forget_allotment := by
  induction l generalizing remainder with
  | nil => simp [give_round]
  | cons a l ih =>
    unfold give_round
    split
    · simp [ih, forget_allotment]
    · simp [ih]

theorem round_robin_le_demand (fuel remainder : Nat) (l : arena_list_type)
    (h : ∀ a ∈ l, a.allotment ≤ a.demand) :
    ∀ a ∈ round_robin fuel remainder l, a.allotment ≤ a.demand := by
  induction fuel generalizing remainder l with
  | zero => simpa [round_robin] using h
  | succ fuel ih =>
    unfold round_robin
    split
    · exact h
    · split
      · exact h
      · exact ih _ _ (give_round_le_demand remainder l h)

theorem round_robin_allotted_le (fuel remainder : Nat) (l : arena_list_type) :
    allotted (round_robin fuel remainder l) ≤ allotted l + remainder := by
  induction fuel generalizing remainder l with
  | zero => simp [round_robin]
  | succ fuel ih =>
    unfold round_robin
    split
    · omega
    · split
      · omega
      · have h1 := ih (give_round remainder l).1 (give_round remainder l).2
        have h2 := give_round_conserve remainder l
        omega

theorem round_robin_forget (fuel remainder : Nat) (l : arena_list_type) :
    (round_robin fuel remainder l).map forget_allotment = l.map forget_allotment := by
  induction fuel generalizing remainder l with
  | zero => simp [round_robin]
  | succ fuel ih =>
    unfold round_robin
    split
    · rfl
    · split
      · rfl
      · rw [ih, give_round_forget]

theorem proportional_split_le_demand (budget total : Nat) (l : arena_list_type)
    (h : budget ≤ total) :
    ∀ a ∈ proportional_split budget total l, a.allotment ≤ a.demand := by
  intro a ha
  simp only [proportional_split, List.mem_map] at ha
  obtain ⟨b, -, rfl⟩ := ha
  show b.demand * budget / total ≤ b.demand
  apply Nat.div_le_of_le_mul
  rw [Nat.mul_comm total]
  exact Nat.mul_le_mul_left _ h

theorem proportional_split_allotted_le_aux (budget total : Nat) (l : arena_list_type) :
    allotted (proportional_split budget total l) ≤ tier_demand l * budget / total := by
  induction l with
  | nil => simp [proportional_split, allotted]
  | cons a l ih =>
    have h1 : allotted (proportional_split budget total (a :: l))
        = a.demand * budget / total + allotted (proportional_split budget total l) := by
      simp [proportional_split, allotted]
    have h2 := Nat.add_div_le_add_div (a.demand * budget) (tier_demand l * budget) total
    rw [h1, tier_demand_cons, Nat.add_mul]
    omega

theorem proportional_split_allotted_le (budget : Nat) (l : arena_list_type) :
    allotted (proportional_split budget (tier_demand l) l) ≤ budget := by
  refine le_trans (proportional_split_allotted_le_aux budget (tier_demand l) l) ?_
  apply Nat.div_le_of_le_mul
  exact le_refl _

theorem proportional_split_forget (budget total : Nat) (l : arena_list_type) :
    (proportional_split budget total l).map forget_allotment = l.map forget_allotment := by
  simp [proportional_split, forget_allotment, Function.comp_def]

theorem give_round_le (remainder : Nat) (l : arena_list_type) :
    (give_round remainder l).1 ≤ remainder := by
  induction l generalizing remainder with
  | nil => simp [give_round]
  | cons a l ih =>
    unfold give_round
    split
    · have := ih (remainder - 1)
      simp only []
      omega
    · exact ih remainder

/-- A round that hands out nothing had nothing to hand out or found every
arena satisfied. -/
theorem give_round_stuck (remainder : Nat) (l : arena_list_type)
    (h : (give_round remainder l).1 = remainder) (hpos : remainder ≠ 0) :
    ∀ a ∈ l, a.demand ≤ a.allotment := by
  induction l with
  | nil => simp
  | cons a l ih =>
    unfold give_round at h
    split at h
    · have := give_round_le (remainder - 1) l
      simp only [] at h
      omega
    · rename_i hc
      intro b hb
      simp only [List.mem_cons] at hb
      rcases hb with rfl | hb
      · simp only [not_and, not_lt] at hc
        exact hc (by omega)
      · exact ih h b hb

theorem allotted_eq_tier_demand_of_saturated (l : arena_list_type)
    (h1 : ∀ a ∈ l, a.allotment ≤ a.demand) (h2 : ∀ a ∈ l, a.demand ≤ a.allotment) :
    allotted l = tier_demand l := by
  induction l with
  | nil => rfl
  | cons a l ih =>
    rw [allotted_cons, tier_demand_cons,
      ih (fun b hb => h1 b (List.mem_cons_of_mem _ hb))
        (fun b hb => h2 b (List.mem_cons_of_mem _ hb))]
    have := h1 a (List.mem_cons_self _ _)
    have := h2 a (List.mem_cons_self _ _)
    omega

theorem tier_demand_eq_of_forget (l₁ l₂ : arena_list_type)
    (h : l₁.map forget_allotment = l₂.map forget_allotment) :
    tier_demand l₁ = tier_demand l₂ := by
  have h1 : ∀ l : arena_list_type,
      tier_demand l = ((l.map forget_allotment).map (fun a => a.demand)).sum := by
    intro l
    simp [tier_demand, forget_allotment, Function.comp_def]
  rw [h1 l₁, h1 l₂, h]

/-- With at least as many rounds as workers to hand out, and demand to take
them, `round_robin` hands out the whole remainder. -/
theorem round_robin_allotted_eq (fuel remainder : Nat) (l : arena_list_type)
    (hfuel : remainder ≤ fuel) (hle : ∀ a ∈ l, a.allotment ≤ a.demand)
    (hroom : allotted l + remainder ≤ tier_demand l) :
    allotted (round_robin fuel remainder l) = allotted l + remainder := by
  induction fuel generalizing remainder l with
  | zero =>
    have : remainder = 0 := by omega
    simp [round_robin, this]
  | succ fuel ih =>
    unfold round_robin
    split
    · omega
    · rename_i hpos
      split
      · rename_i hstuck
        have := allotted_eq_tier_demand_of_saturated l hle
          (give_round_stuck remainder l hstuck hpos)
        omega
      · rename_i hmove
        have h1 := give_round_le remainder l
        have h2 := give_round_conserve remainder l
        have h3 := tier_demand_eq_of_forget _ _ (give_round_forget remainder l)
        rw [ih (give_round remainder l).1 (give_round remainder l).2 (by omega)
          (give_round_le_demand remainder l hle) (by omega)]
        omega

/-- A tier is handed exactly its budget: what is available, at most what it
demands. -/
theorem allot_tier_allotted_eq (available : Nat) (l : arena_list_type) :
    allotted (allot_tier available l).2 = min (tier_demand l) available ∧
    (allot_tier available l).1 = available - min (tier_demand l) available := by
  refine ⟨?_, rfl⟩
  unfold allot_tier
  have h2 := proportional_split_allotted_le (min (tier_demand l) available) l
  have h3 := tier_demand_eq_of_forget _ _
    (proportional_split_forget (min (tier_demand l) available) (tier_demand l) l)
  have h4 : min (tier_demand l) available ≤ tier_demand l := Nat.min_le_left _ _
  simp only []
  rw [round_robin_allotted_eq _ _ _ (le_refl _)
    (proportional_split_le_demand _ _ _ h4) (by omega)]
  omega

theorem allot_tier_le_demand (available : Nat) (l : arena_list_type) :
    ∀ a ∈ (allot_tier available l).2, a.allotment ≤ a.demand := by
  unfold allot_tier
  exact round_robin_le_demand _ _ _
    (proportional_split_le_demand _ _ _ (Nat.min_le_left _ _))

theorem allot_tier_allotted_le (available : Nat) (l : arena_list_type) :
    allotted (allot_tier available l).2 + (allot_tier available l).1 ≤ available := by
  unfold allot_tier
  have h1 := round_robin_allotted_le
    (min (tier_demand l) available -
      allotted (proportional_split (min (tier_demand l) available) (tier_demand l) l))
    (min (tier_demand l) available -
      allotted (proportional_split (min (tier_demand l) available) (tier_demand l) l))
    (proportional_split (min (tier_demand l) available) (tier_demand l) l)
  have h2 := proportional_split_allotted_le (min (tier_demand l) available) l
  have h3 : min (tier_demand l) available ≤ available := Nat.min_le_right _ _
  simp only []
  omega

theorem allot_tier_forget (available : Nat) (l : arena_list_type) :
    (allot_tier available l).2.map forget_allotment = l.map forget_allotment := by
  unfold allot_tier
  simp only [round_robin_forget, proportional_split_forget]

theorem allot_tiers_le_demand (available : Nat) (ls : List arena_list_type) :
    ∀ a ∈ (allot_tiers available ls).flatten, a.allotment ≤ a.demand := by
  induction ls generalizing available with
  | nil => simp [allot_tiers]
  | cons l ls ih =>
    intro a ha
    simp only [allot_tiers, List.flatten_cons, List.mem_append] at ha
    rcases ha with ha | ha
    · exact allot_tier_le_demand available l a ha
    · exact ih _ a ha

theorem allot_tiers_allotted_le (available : Nat) (ls : List arena_list_type) :
    allotted (allot_tiers available ls).flatten ≤ available := by
  induction ls generalizing available with
  | nil => simp [allot_tiers, allotted]
  | cons l ls ih =>
    simp only [allot_tiers, List.flatten_cons, allotted_append]
    have h1 := ih (allot_tier available l).1
    have h2 := allot_tier_allotted_le available l
    omega

theorem allot_tiers_forget (available : Nat) (ls : List arena_list_type) :
    (allot_tiers available ls).map (List.map forget_allotment)
      = ls.map (List.map forget_allotment) := by
  induction ls generalizing available with
  | nil => simp [allot_tiers]
  | cons l ls ih =>
    simp only [allot_tiers, List.map_cons, allot_tier_forget, ih]

theorem allot_tiers_length (available : Nat) (ls : List arena_list_type) :
    (allot_tiers available ls).length = ls.length := by
  induction ls generalizing available with
  | nil => simp [allot_tiers]
  | cons l ls ih => simp [allot_tiers, ih]

/-! ### Worker request and allotment -/

theorem update_allotment_arenas_frame (m : market) (arenas : List arena_list_type)
    (total_demand max_workers : Int) :
    (m.update_allotment_arenas arenas total_demand max_workers).2
      = { m with my_arenas := allot_tiers max_workers.toNat arenas } := rfl

theorem update_allotment_eq_ite
    (update_allotment_arenas : market → List arena_list_type → Int → Int → Int × market)
    (m : market) (effective_soft_limit : Nat) :
    m.update_allotment update_allotment_arenas effective_soft_limit =
      if m.my_total_demand ≠ 0 then
        (update_allotment_arenas m m.my_arenas m.my_total_demand
          (to_int effective_soft_limit)).2
      else m := rfl

theorem update_allotment_frame (m : market) (effective_soft_limit : Nat) :
    m.update_allotment market.update_allotment_arenas effective_soft_limit
      = { m with my_arenas :=
            (m.update_allotment market.update_allotment_arenas effective_soft_limit).my_arenas } := by
  rw [update_allotment_eq_ite]
  by_cases h : m.my_total_demand ≠ 0
  · rw [if_pos h]; rfl
  · rw [if_neg h]

/-- C1: after `update_workers_request()` the number of workers requested is
`min(total_demand, soft_limit, hard_limit)` raised to 0 when negative; it is
therefore at most `min(soft_limit, hard_limit)` and never negative.  The call
leaves both limits and the total demand as they were. -/
theorem update_workers_request_requested (m : market) :
    m.update_workers_request.2.my_num_workers_requested =
      max 0 (min m.my_total_demand
        (min (m.my_num_workers_soft_limit : Int) (m.my_num_workers_hard_limit : Int))) ∧
    m.update_workers_request.2.my_num_workers_requested ≤
      min (m.my_num_workers_soft_limit : Int) (m.my_num_workers_hard_limit : Int) ∧
    0 ≤ m.update_workers_request.2.my_num_workers_requested ∧
    m.update_workers_request.2.my_num_workers_soft_limit = m.my_num_workers_soft_limit ∧
    m.update_workers_request.2.my_num_workers_hard_limit = m.my_num_workers_hard_limit ∧
    m.update_workers_request.2.my_total_demand = m.my_total_demand := by
  have key : m.update_workers_request.2.my_num_workers_requested =
      max 0 (min m.my_total_demand
        (min (m.my_num_workers_soft_limit : Int) (m.my_num_workers_hard_limit : Int))) := by
    unfold market.update_workers_request
    simp only []
    rw [update_allotment_frame]
  refine ⟨key, ?_, ?_, ?_, ?_, ?_⟩
  · rw [key]; omega
  · rw [key]; omega
  · unfold market.update_workers_request
    simp only []
    rw [update_allotment_frame]
  · unfold market.update_workers_request
    simp only []
    rw [update_allotment_frame]
  · unfold market.update_workers_request
    simp only []
    rw [update_allotment_frame]

theorem update_allotment_arenas_eq (m : market) (effective_limit : Nat)
    (h : m.my_total_demand ≠ 0) :
    (m.update_allotment market.update_allotment_arenas effective_limit).my_arenas
      = allot_tiers (to_int effective_limit).toNat m.my_arenas := by
  simp [market.update_allotment, h, update_allotment_arenas_frame]

/-- C2 as stated fails: on the market whose only arena has no demand left but
still holds 3 workers, and whose total demand is 0, `update_allotment(5)`
returns with that arena holding 3 workers against a demand of 0. -/
theorem update_allotment_stale_counterexample :
    market.example_stale.my_total_demand = 0 ∧
    ¬ (market.example_stale.update_allotment market.update_allotment_arenas 5).allotment_within 5 := by
  decide

/-- C2, amended: when the total demand is not zero, after
`update_allotment(effective_limit)` no arena holds more than its own demand and
all arenas together hold at most `effective_limit`; when the total demand is
zero the call changes nothing.  In both cases slots, epochs, tiers and demands
of the registered arenas are as before.  Demands 4, 2, 1 in one tier: limit 5
gives allotments summing to 5 within the bounds, limit 7 gives (4, 2, 1). -/
theorem update_allotment_within (m : market) (effective_limit : Nat) :
    (m.my_total_demand ≠ 0 →
      (m.update_allotment market.update_allotment_arenas effective_limit).allotment_within
        effective_limit) ∧
    (m.my_total_demand = 0 →
      m.update_allotment market.update_allotment_arenas effective_limit = m) ∧
    (m.update_allotment market.update_allotment_arenas effective_limit).my_arenas.map
        (List.map forget_allotment) = m.my_arenas.map (List.map forget_allotment) ∧
    (allotted (market.example_fairness.update_allotment market.update_allotment_arenas
        5).registered = 5 ∧
      (market.example_fairness.update_allotment market.update_allotment_arenas
        5).allotment_within 5) ∧
    (market.example_fairness.update_allotment market.update_allotment_arenas
        7).registered.map (fun a => a.allotment) = [4, 2, 1] := by
  refine ⟨?_, ?_, ?_, by decide, by decide⟩
  · intro h
    unfold market.allotment_within market.registered
    rw [update_allotment_arenas_eq m effective_limit h]
    refine ⟨allot_tiers_le_demand _ _, ?_⟩
    exact le_trans (allot_tiers_allotted_le _ _) (to_int_toNat_le effective_limit)
  · intro h
    simp [market.update_allotment, h]
  · by_cases h : m.my_total_demand = 0
    · simp [market.update_allotment, h]
    · rw [update_allotment_arenas_eq m effective_limit h, allot_tiers_forget]

/-- Witness for C2, amended: the end-to-end example of spec section 8 (arena A
in tier 0 wants 6, arena B in tier 1 wants 3) with limit 5 gives A 5 and B 0. -/
theorem update_allotment_within_witness :
    market.example_end_to_end.my_total_demand ≠ 0 ∧
    (market.example_end_to_end.update_allotment market.update_allotment_arenas
      5).allotment_within 5 ∧
    (market.example_end_to_end.update_allotment market.update_allotment_arenas
      5).registered.map (fun a => a.allotment) = [5, 0] :=
  ⟨by decide, (update_allotment_within market.example_end_to_end 5).1 (by decide), by decide⟩

/-! ### The arena registry -/

theorem modify_tier_length (f : arena_list_type → arena_list_type) (i : Nat)
    (ls : List arena_list_type) : (modify_tier f i ls).length = ls.length := by
  induction ls generalizing i with
  | nil => simp [modify_tier]
  | cons l ls ih =>
    cases i with
    | zero => rfl
    | succ i => simp [modify_tier, ih]

theorem modify_tier_getD (f : arena_list_type → arena_list_type) (i : Nat)
    (ls : List arena_list_type) (h : i < ls.length) :
    (modify_tier f i ls).getD i [] = f (ls.getD i []) := by
  induction ls generalizing i with
  | nil => simp at h
  | cons l ls ih =>
    cases i with
    | zero => rfl
    | succ i =>
      have h2 : i < ls.length := by simpa using h
      simpa [modify_tier] using ih i h2

theorem mem_flatten_of_mem_getD (ls : List arena_list_type) (i : Nat)
    (a : tbb_permit_manager_client) (h : a ∈ ls.getD i []) : a ∈ ls.flatten := by
  induction ls generalizing i with
  | nil => simp at h
  | cons l ls ih =>
    cases i with
    | zero =>
      have h2 : a ∈ l := h
      simp [h2]
    | succ i =>
      have h2 : a ∈ ls.getD i [] := h
      simp [ih i h2]

theorem mem_flatten_modify_tier (f : arena_list_type → arena_list_type)
    (R : tbb_permit_manager_client → Prop)
    (hf : ∀ l, ∀ a ∈ f l, a ∈ l ∨ R a) (i : Nat) (ls : List arena_list_type) :
    ∀ a ∈ (modify_tier f i ls).flatten, a ∈ ls.flatten ∨ R a := by
  induction ls generalizing i with
  | nil => intro a ha; simp [modify_tier] at ha
  | cons l ls ih =>
    intro a ha
    cases i with
    | zero =>
      simp only [modify_tier, List.flatten_cons, List.mem_append] at ha
      rcases ha with ha | ha
      · rcases hf l a ha with h | h
        · left; simp [h]
        · right; exact h
      · left; simp [ha]
    | succ i =>
      simp only [modify_tier, List.flatten_cons, List.mem_append] at ha
      rcases ha with ha | ha
      · left; simp [ha]
      · rcases ih i a ha with h | h
        · left; simp [h]
        · right; exact h

theorem mem_registered_insert (m : market) (c a : tbb_permit_manager_client)
    (h : a ∈ (m.insert_arena_into_list c).registered) : a ∈ m.registered ∨ a = c := by
  unfold market.registered market.insert_arena_into_list at h
  refine mem_flatten_modify_tier (fun l => c :: l) (fun a => a = c) ?_ _ _ a h
  intro l b hb
  simp only [List.mem_cons] at hb
  rcases hb with hb | hb
  · right; exact hb
  · left; exact hb

theorem mem_registered_remove (m : market) (c a : tbb_permit_manager_client)
    (h : a ∈ (m.remove_arena_from_list c).registered) : a ∈ m.registered := by
  unfold market.registered market.remove_arena_from_list at h
  have := mem_flatten_modify_tier (fun l => l.filter (fun b => b.slot != c.slot))
    (fun _ => False) ?_ _ _ a h
  · rcases this with h1 | h1
    · exact h1
    · exact h1.elim
  · intro l b hb
    left
    exact List.mem_of_mem_filter hb

/-- After removal from a duplicate-free registry no arena sits at the slot of
the removed handle. -/
theorem slot_free_after_remove (h : tbb_permit_manager_client) (t : Nat)
    (ls : List arena_list_type)
    (hnodup : (ls.flatten.map (fun a => a.slot)).Nodup) (hreg : h ∈ ls.getD t []) :
    ∀ a ∈ (modify_tier (fun l => l.filter (fun b => b.slot != h.slot)) t ls).flatten,
      a.slot ≠ h.slot := by
  induction ls generalizing t with
  | nil => simp at hreg
  | cons l ls ih =>
    simp only [List.flatten_cons, List.map_append] at hnodup
    rw [List.nodup_append] at hnodup
    obtain ⟨-, hn2, hdisj⟩ := hnodup
    intro a ha
    cases t with
    | zero =>
      have hreg2 : h ∈ l := hreg
      simp only [modify_tier, List.flatten_cons, List.mem_append] at ha
      rcases ha with ha | ha
      · have := (List.mem_filter.mp ha).2
        simpa using this
      · intro heq
        exact hdisj (List.mem_map_of_mem _ hreg2) (heq ▸ List.mem_map_of_mem _ ha)
    | succ t =>
      have hreg2 : h ∈ ls.getD t [] := hreg
      simp only [modify_tier, List.flatten_cons, List.mem_append] at ha
      rcases ha with ha | ha
      · intro heq
        have h1 : h ∈ ls.flatten := mem_flatten_of_mem_getD ls t h hreg2
        exact hdisj (heq ▸ List.mem_map_of_mem _ ha) (List.mem_map_of_mem _ h1)
      · exact ih t hn2 hreg2 a ha

theorem stale_after_destroy (m : market) (h : tbb_permit_manager_client)
    (hwf : m.wf) (hreg : h ∈ m.my_arenas.getD h.priority_level []) :
    (m.destroy_client h).stale h.slot h.epoch := by
  obtain ⟨hlen, hepoch, hnodup⟩ := hwf
  refine ⟨?_, ?_, ?_⟩
  · simpa [market.destroy_client, market.remove_arena_from_list, modify_tier_length] using hlen
  · exact hepoch h (mem_flatten_of_mem_getD _ _ _ hreg)
  · intro a ha hslot
    exact absurd hslot (slot_free_after_remove h h.priority_level m.my_arenas hnodup hreg a ha)

theorem stale_create (m : market) (slot e s t : Nat) (h : m.stale slot e) :
    (m.create_client s t).2.stale slot e := by
  obtain ⟨hlen, he, hall⟩ := h
  refine ⟨?_, ?_, ?_⟩
  · simpa [market.create_client, market.insert_arena_into_list, modify_tier_length] using hlen
  · show e < m.my_arenas_aba_epoch + 1
    omega
  · intro a ha hslot
    rcases mem_registered_insert _ _ a ha with h1 | h1
    · exact hall a h1 hslot
    · rw [h1]; exact he

theorem stale_remove (m : market) (slot e : Nat) (c : tbb_permit_manager_client)
    (h : m.stale slot e) : (m.remove_arena_from_list c).stale slot e := by
  obtain ⟨hlen, he, hall⟩ := h
  refine ⟨?_, he, ?_⟩
  · simpa [market.remove_arena_from_list, modify_tier_length] using hlen
  · intro a ha hslot
    exact hall a (mem_registered_remove m c a ha) hslot

/-- A stale reference is recognised: `try_destroy_arena` reports "already gone"
and leaves the market as it is. -/
theorem try_destroy_arena_of_stale (m : market) (slot e t : Nat) (h : m.stale slot e) :
    m.try_destroy_arena slot e t = (false, m) := by
  unfold market.try_destroy_arena
  split
  · rename_i a hfind
    have hmem : a ∈ m.registered :=
      mem_flatten_of_mem_getD _ _ _ (List.mem_of_find?_eq_some hfind)
    have hslot : a.slot = slot := by simpa using List.find?_some hfind
    have := h.2.2 a hmem hslot
    rw [if_neg (by omega)]
  · rfl

theorem stale_update_request (m : market) (slot e : Nat) (h : m.stale slot e) :
    m.update_workers_request.2.stale slot e := by
  obtain ⟨hlen, he, hall⟩ := h
  unfold market.update_workers_request
  simp only []
  rw [update_allotment_frame]
  rw [update_allotment_eq_ite]
  split
  · refine ⟨?_, he, ?_⟩
    · simpa [update_allotment_arenas_frame, allot_tiers_length] using hlen
    · intro a ha hslot
      simp only [market.registered, update_allotment_arenas_frame] at ha
      have h1 : forget_allotment a ∈ (allot_tiers _ m.my_arenas).flatten.map forget_allotment :=
        List.mem_map_of_mem _ ha
      rw [List.map_flatten, allot_tiers_forget, ← List.map_flatten] at h1
      obtain ⟨b, hb, hba⟩ := List.mem_map.mp h1
      have h2 : (forget_allotment b).slot = (forget_allotment a).slot := by rw [hba]
      have h3 : (forget_allotment b).epoch = (forget_allotment a).epoch := by rw [hba]
      simp only [forget_allotment] at h2 h3
      have := hall b hb (h2.trans hslot)
      omega
  · exact ⟨hlen, he, hall⟩

theorem stale_step (m : market) (slot e : Nat) (op : registry_op) (h : m.stale slot e) :
    (m.step op).stale slot e := by
  cases op with
  | create s t => exact stale_create m slot e s t h
  | destroy c => exact stale_remove m slot e c h
  | try_destroy c aba_epoch priority_level =>
    show (m.try_destroy_arena c aba_epoch priority_level).2.stale slot e
    unfold market.try_destroy_arena
    split
    · split
      · exact stale_remove m slot e _ h
      · exact h
    · exact h
  | update_request => exact stale_update_request m slot e h

theorem stale_run (m : market) (slot e : Nat) (ops : List registry_op) (h : m.stale slot e) :
    (m.run ops).stale slot e := by
  induction ops generalizing m with
  | nil => exact h
  | cons op ops ih => exact ih (m.step op) (stale_step m slot e op h)

/-- C5 (ABA safety): let `h` be registered in a well-formed market.  After
`destroy_client(h)`, then any registry operations, then a `create_client` that
lands in the slot `h` occupied, the new handle carries a strictly larger epoch
than `h`, and `try_destroy_arena` with `h`'s slot and `h`'s original epoch, for
whatever tier, reports "already gone" (`false`), leaves the market exactly as
it was, and the new arena is a member of the list of its tier. -/
theorem try_destroy_arena_aba_safe (m : market) (h : tbb_permit_manager_client)
    (ops : List registry_op) (tier asked_tier : Nat)
    (hwf : m.wf) (hreg : h ∈ m.my_arenas.getD h.priority_level [])
    (htier : tier < num_priority_levels) :
    h.epoch < (((m.destroy_client h).run ops).create_client h.slot tier).1.epoch ∧
    (((m.destroy_client h).run ops).create_client h.slot tier).2.try_destroy_arena
        h.slot h.epoch asked_tier
      = (false, (((m.destroy_client h).run ops).create_client h.slot tier).2) ∧
    (((m.destroy_client h).run ops).create_client h.slot tier).1 ∈
      ((((m.destroy_client h).run ops).create_client h.slot tier).2.try_destroy_arena
        h.slot h.epoch asked_tier).2.my_arenas.getD tier [] := by
  have h1 : ((m.destroy_client h).run ops).stale h.slot h.epoch :=
    stale_run _ _ _ ops (stale_after_destroy m h hwf hreg)
  have h2 := stale_create _ h.slot h.epoch h.slot tier h1
  have h3 := try_destroy_arena_of_stale _ h.slot h.epoch asked_tier h2
  refine ⟨h1.2.1, h3, ?_⟩
  rw [h3]
  show _ ∈ (modify_tier _ tier ((m.destroy_client h).run ops).my_arenas).getD tier []
  rw [modify_tier_getD _ _ _ (by rw [h1.1]; exact htier)]
  exact List.mem_cons_self _ _

/-- Witness for C5: in the two-arena registry the handle at slot 4096 (epoch 1)
is destroyed, an arena is created elsewhere and the request is recomputed, and
a new arena then lands in slot 4096; the old reference is "already gone". -/
theorem try_destroy_arena_aba_safe_witness :
    market.example_registry.wf ∧
    (1 : Nat) < ((((market.example_registry.destroy_client market.example_handle).run
      [registry_op.create 12288 2, registry_op.update_request]).create_client 4096 1).1).epoch ∧
    ((((market.example_registry.destroy_client market.example_handle).run
      [registry_op.create 12288 2, registry_op.update_request]).create_client 4096 1).2
        ).try_destroy_arena 4096 1 1
      = (false, (((market.example_registry.destroy_client market.example_handle).run
          [registry_op.create 12288 2, registry_op.update_request]).create_client 4096 1).2) := by
  have hwf : market.example_registry.wf := by decide
  have h := try_destroy_arena_aba_safe market.example_registry market.example_handle
    [registry_op.create 12288 2, registry_op.update_request] 1 1 hwf (by decide) (by decide)
  exact ⟨hwf, h.1, h.2.1⟩

/-! ### Well-formedness is kept by the registry operations -/

theorem nodup_slots_insert (c : tbb_permit_manager_client) (i : Nat)
    (ls : List arena_list_type)
    (hnodup : (ls.flatten.map (fun a => a.slot)).Nodup)
    (hfresh : ∀ a ∈ ls.flatten, a.slot ≠ c.slot) :
    ((modify_tier (fun l => c :: l) i ls).flatten.map (fun a => a.slot)).Nodup := by
  induction ls generalizing i with
  | nil => simp [modify_tier]
  | cons l ls ih =>
    cases i with
    | zero =>
      simp only [modify_tier, List.flatten_cons, List.cons_append, List.map_cons,
        List.nodup_cons]
      refine ⟨?_, by simpa using hnodup⟩
      intro hmem
      obtain ⟨a, ha, heq⟩ := List.mem_map.mp hmem
      exact hfresh a (by simpa using ha) heq
    | succ i =>
      simp only [List.flatten_cons, List.map_append] at hnodup
      rw [List.nodup_append] at hnodup
      obtain ⟨hn1, hn2, hdisj⟩ := hnodup
      have hfresh2 : ∀ a ∈ ls.flatten, a.slot ≠ c.slot :=
        fun a ha => hfresh a (by simp [ha])
      simp only [modify_tier, List.flatten_cons, List.map_append]
      rw [List.nodup_append]
      refine ⟨hn1, ih i hn2 hfresh2, ?_⟩
      intro x hx1 hx2
      obtain ⟨a, ha, rfl⟩ := List.mem_map.mp hx2
      rcases mem_flatten_modify_tier (fun l => c :: l) (fun a => a = c)
          (fun l b hb => by
            simp only [List.mem_cons] at hb
            rcases hb with hb | hb
            · right; exact hb
            · left; exact hb) i ls a ha with h1 | h1
      · exact hdisj hx1 (List.mem_map_of_mem _ h1)
      · obtain ⟨b, hb, hbeq⟩ := List.mem_map.mp hx1
        rw [h1] at hbeq
        exact hfresh b (by simp [hb]) hbeq

theorem flatten_modify_tier_filter_sublist (p : tbb_permit_manager_client → Bool) (i : Nat)
    (ls : List arena_list_type) :
    (modify_tier (fun l => l.filter p) i ls).flatten.Sublist ls.flatten := by
  induction ls generalizing i with
  | nil => simp [modify_tier]
  | cons l ls ih =>
    cases i with
    | zero =>
      simp only [modify_tier, List.flatten_cons]
      exact List.Sublist.append (List.filter_sublist l) (List.Sublist.refl _)
    | succ i =>
      simp only [modify_tier, List.flatten_cons]
      exact List.Sublist.append (List.Sublist.refl _) (ih i)

theorem wf_create_client (m : market) (slot priority_level : Nat) (hwf : m.wf)
    (hfresh : ∀ a ∈ m.registered, a.slot ≠ slot) :
    (m.create_client slot priority_level).2.wf := by
  obtain ⟨hlen, hepoch, hnodup⟩ := hwf
  refine ⟨?_, ?_, ?_⟩
  · simpa [market.create_client, market.insert_arena_into_list, modify_tier_length] using hlen
  · intro a ha
    show a.epoch < m.my_arenas_aba_epoch + 1
    rcases mem_registered_insert _ _ a ha with h1 | h1
    · have := hepoch a h1
      omega
    · rw [h1]
      show m.my_arenas_aba_epoch < m.my_arenas_aba_epoch + 1
      omega
  · exact nodup_slots_insert _ priority_level m.my_arenas hnodup hfresh

theorem wf_remove (m : market) (c : tbb_permit_manager_client) (hwf : m.wf) :
    (m.remove_arena_from_list c).wf := by
  obtain ⟨hlen, hepoch, hnodup⟩ := hwf
  refine ⟨?_, ?_, ?_⟩
  · simpa [market.remove_arena_from_list, modify_tier_length] using hlen
  · intro a ha
    exact hepoch a (mem_registered_remove m c a ha)
  · exact List.Nodup.sublist
      ((flatten_modify_tier_filter_sublist _ c.priority_level m.my_arenas).map _) hnodup

theorem update_workers_request_forget (m : market) :
    m.update_workers_request.2.my_arenas.map (List.map forget_allotment)
      = m.my_arenas.map (List.map forget_allotment) ∧
    m.update_workers_request.2.my_arenas_aba_epoch = m.my_arenas_aba_epoch := by
  unfold market.update_workers_request
  simp only []
  rw [update_allotment_frame, update_allotment_eq_ite]
  split
  · exact ⟨by simp only [update_allotment_arenas_frame, allot_tiers_forget], rfl⟩
  · exact ⟨rfl, rfl⟩

theorem wf_update_request (m : market) (hwf : m.wf) : m.update_workers_request.2.wf := by
  obtain ⟨hlen, hepoch, hnodup⟩ := hwf
  obtain ⟨h1, h2⟩ := update_workers_request_forget m
  have h3 : m.update_workers_request.2.registered.map forget_allotment
      = m.registered.map forget_allotment := by
    simp only [market.registered, List.map_flatten, h1]
  have hslot : ∀ l : arena_list_type,
      l.map (fun a => a.slot) = (l.map forget_allotment).map (fun a => a.slot) := by
    intro l
    simp [forget_allotment, Function.comp_def]
  refine ⟨?_, ?_, ?_⟩
  · have := congrArg List.length h1
    simpa [hlen] using this
  · intro a ha
    have h4 : forget_allotment a ∈ m.update_workers_request.2.registered.map forget_allotment :=
      List.mem_map_of_mem _ ha
    rw [h3] at h4
    obtain ⟨b, hb, hba⟩ := List.mem_map.mp h4
    have h5 : (forget_allotment b).epoch = (forget_allotment a).epoch := by rw [hba]
    simp only [forget_allotment] at h5
    have := hepoch b hb
    rw [h2]
    omega
  · rw [hslot, h3, ← hslot]
    exact hnodup

theorem wf_step (m : market) (op : registry_op) (hwf : m.wf) (hadm : m.admits op) :
    (m.step op).wf := by
  cases op with
  | create s t => exact wf_create_client m s t hwf hadm
  | destroy c => exact wf_remove m c hwf
  | try_destroy c aba_epoch priority_level =>
    show (m.try_destroy_arena c aba_epoch priority_level).2.wf
    unfold market.try_destroy_arena
    split
    · split
      · exact wf_remove m _ hwf
      · exact hwf
    · exact hwf
  | update_request => exact wf_update_request m hwf

/-- Every market reached from a well-formed one, the empty market for
instance, by operations that can happen is well-formed. -/
theorem wf_run (m : market) (ops : List registry_op) (hwf : m.wf)
    (hadm : m.admits_all ops) : (m.run ops).wf := by
  induction ops generalizing m with
  | nil => exact hwf
  | cons op ops ih => exact ih (m.step op) (wf_step m op hwf hadm.1) hadm.2

theorem example_empty_wf : market.example_empty.wf := by decide

/-- The end-to-end example of spec section 8 on the model: hard limit 8, soft
limit 5, arena A (tier 0) wants 6, arena B (tier 1) wants 3.  The request is 5
and A gets 5, B gets 0; with the soft limit at 9 the request is 8 and A gets 6,
B gets 2. -/
theorem update_workers_request_end_to_end :
    market.example_end_to_end.update_workers_request.2.my_num_workers_requested = 5 ∧
    market.example_end_to_end.update_workers_request.2.registered.map
      (fun a => a.allotment) = [5, 0] ∧
    market.example_end_to_end_raised.update_workers_request.2.my_num_workers_requested = 8 ∧
    market.example_end_to_end_raised.update_workers_request.2.registered.map
      (fun a => a.allotment) = [6, 2] := by
  decide

/-- A request of `2^64 - 100` bytes in a 64-bit build: `size + 128` wraps
around, the call leaves with `bad_alloc` and the allocator is not invoked. -/
theorem cache_aligned_allocate_overflow_example :
    (cache_aligned_allocate 64 true (recording bump) (2 ^ 64 - 100) ((1000, 4096), [])).outcome
      = Outcome.threw exception_id.bad_alloc ∧
    (cache_aligned_allocate 64 true (recording bump) (2 ^ 64 - 100) ((1000, 4096), [])).heap
      = ((1000, 4096), []) := by
  decide

end tbb
